import Mathlib

/-!
Verification of the `cz-github-convention` commitizen plugin
(`cz_github_convention.py`) against its natural-language specification.

The Python module is embedded shallowly: strings are Lean `String`
(lists of unicode scalar `Char`s), Python regular expressions are
embedded as explicit matching functions over `List Char`, and the
in-place dictionary mutation performed by the changelog hook is made
explicit through a heap of `ParsedMessage` cells indexed by `Nat`.
-/

namespace CzGithub

/-- Python whitespace class used by `str.strip()`, `str.split()` and the
regex class `\s` (ASCII range): space, tab, newline, carriage return,
vertical tab and form feed. -/
def pySpace (c : Char) : Bool :=
  c == ' ' || c == '\t' || c == '\n' || c == '\r' || c == '\x0b' || c == '\x0c'

/-- Drop the longest suffix of `l` whose characters all satisfy `p`. -/
def dropTrailing (p : Char → Bool) (l : List Char) : List Char :=
  (l.reverse.dropWhile p).reverse

/-- Python `str.strip()`: remove leading and trailing whitespace. -/
def pyStrip (l : List Char) : List Char :=
  dropTrailing pySpace (l.dropWhile pySpace)

/-- Python `str.strip(".")`: remove all leading and trailing period
characters (not just one). -/
def pyStripDots (l : List Char) : List Char :=
  dropTrailing (· == '.') (l.dropWhile (· == '.'))

/-- Python `str.split()` with no argument: split on runs of whitespace,
producing no empty tokens.  The accumulator holds the characters of the
current token in reverse order. -/
def pySplitAux : List Char → List Char → List (List Char)
  | [], acc => if acc = [] then [] else [acc.reverse]
  | c :: cs, acc =>
    if pySpace c then
      if acc = [] then pySplitAux cs [] else acc.reverse :: pySplitAux cs []
    else pySplitAux cs (c :: acc)

/-- Python `str.split()` with no argument. -/
def pySplit (l : List Char) : List (List Char) :=
  pySplitAux l []

/- ------------------------------------------------------------------
   The prompt normalizers (module-level functions of the source file).
   ------------------------------------------------------------------ -/

/-- Source `parse_scope` (lines 13-21): empty input is returned as is;
otherwise the input is stripped, split on whitespace, and the tokens are
joined with a hyphen (a lone token is returned unchanged). -/
def parse_scope (text : String) : String :=
  if text = "" then ""
  else
    let scope := pySplit (pyStrip text.data)
    match scope with
    | [s] => ⟨s⟩
    | _ => ⟨List.intercalate ['-'] scope⟩

/-- Modelled from the spec: `required_validator` is imported from
`commitizen.cz.utils`, whose code is not part of this repository.  The
spec says the subject normalizer "fails with ValidationError(..)} if the
result is empty", so the validator returns an error holding the message
exactly when the value is empty, and the value itself otherwise. -/
def required_validator (text : String) (msg : String) : Except String String :=
  if text = "" then .error msg else .ok text

/-- Source `parse_subject` (lines 24-28): `text.strip(".").strip()`
followed by `required_validator(text, msg="Subject is required.")`. -/
def parse_subject (text : String) : Except String String :=
  required_validator ⟨pyStrip (pyStripDots text.data)⟩ "Subject is required."

instance : DecidableEq (Except String String) := fun a b =>
  match a, b with
  | .error x, .error y =>
    if h : x = y then .isTrue (by rw [h])
    else .isFalse (fun he => h (Except.error.inj he))
  | .ok x, .ok y =>
    if h : x = y then .isTrue (by rw [h])
    else .isFalse (fun he => h (Except.ok.inj he))
  | .error _, .ok _ => .isFalse (fun he => Except.noConfusion he)
  | .ok _, .error _ => .isFalse (fun he => Except.noConfusion he)

/-- The normalization step exactly as claim C6 words it: trim exactly
one trailing period, then surrounding whitespace. -/
def dropOneTrailingDot (l : List Char) : List Char :=
  match l.reverse with
  | '.' :: r => r.reverse
  | _ => l

/-- The subject parser exactly as claim C6 words it, for comparison
with the source function `parse_subject`. -/
def claimParseSubject (text : String) : Except String String :=
  let n : String := ⟨pyStrip (dropOneTrailingDot text.data)⟩
  if n = "" then .error "Subject is required" else .ok n

/- ------------------------------------------------------------------
   Bump classification (source lines 32-44).
   ------------------------------------------------------------------ -/

/-- First line of a commit message: the rules are anchored with `^`/`$`
and `.` does not cross a newline, and the spec says the rule list is
"tested against the first line of a commit message". -/
def firstLine (l : List Char) : List Char :=
  l.takeWhile (· ≠ '\n')

/-- Embedding of the regex `^.+!$` (source line 37): one or more
characters followed by a final exclamation mark — on a newline-free
line this means length at least two ending in an exclamation mark. -/
def matchBangEnd (l : List Char) : Bool :=
  match l.reverse with
  | '!' :: _ :: _ => true
  | _ => false

/-- Embedding of the regex `^BREAKING[\- ]CHANGE` (source line 38). -/
def matchBreakingChange (l : List Char) : Bool :=
  "BREAKING-CHANGE".data.isPrefixOf l || "BREAKING CHANGE".data.isPrefixOf l

/-- Embedding of the regexes `^<emoji>? ?<word>` of source lines 39-42:
an optional leading emoji glyph, an optional space, then the type word,
anchored at the start. -/
def matchEmojiWord (e : Char) (w : List Char) (l : List Char) : Bool :=
  w.isPrefixOf l || (' ' :: w).isPrefixOf l
    || (e :: w).isPrefixOf l || (e :: ' ' :: w).isPrefixOf l

/-- `commitizen.defaults.MAJOR`. -/
def MAJOR : String := "MAJOR"

/-- `commitizen.defaults.MINOR`. -/
def MINOR : String := "MINOR"

/-- `commitizen.defaults.PATCH`. -/
def PATCH : String := "PATCH"

/-- Source `bump_map` (lines 35-44): the ordered (pattern, category)
rule list, each regex embedded as its matching function. -/
def bump_map : List ((List Char → Bool) × String) :=
  [ (matchBangEnd, MAJOR),
    (matchBreakingChange, MAJOR),
    (matchEmojiWord '🎉' "feat".data, MINOR),
    (matchEmojiWord '🐛' "fix".data, PATCH),
    (matchEmojiWord '🔧' "refactor".data, PATCH),
    (matchEmojiWord '🚀' "perf".data, PATCH) ]

/-- Modelled from the spec: the evaluation of `bump_map` belongs to the
host framework (commitizen), whose code is not part of this repository.
The spec describes it as "an ordered list of (regular-expression,
bumpCategory) pairs tested against the first line of a commit message,
in the order listed; the first matching pattern wins", and "No match ⇒
category NONE" (here `none`). -/
def find_increment (msg : List Char) : Option String :=
  (bump_map.find? (fun rule => rule.1 (firstLine msg))).map (fun rule => rule.2)

/- ------------------------------------------------------------------
   Class-level configuration check (source lines 47-54).
   ------------------------------------------------------------------ -/

/-- Outcome of the module-import-time configuration check: either the
process terminates (after printing a diagnostic) with the given exit
status, or the class attribute `github_repo` is set. -/
inductive InitResult where
  | exited (diagnostic : String) (code : Nat)
  | ok (github_repo : String)
  deriving DecidableEq

/-- The diagnostic printed when the configuration key is missing. -/
def githubRepoDiagnostic : String :=
  "Please add the key github_repo to your .cz.yaml|json|toml config file."

/-- Source lines 47-54: the configuration settings are read at class
definition time; if the key `github_repo` is absent the diagnostic is
printed and `quit()` is called.  `quit()` with no argument raises
`SystemExit(None)`, which terminates the process with exit status 0.
Otherwise `github_repo` is bound to the configured value.  The settings
mapping is embedded as an association list. -/
def classInit (settings : List (String × String)) : InitResult :=
  match settings.lookup "github_repo" with
  | none => .exited githubRepoDiagnostic 0
  | some v => .ok v

/- ------------------------------------------------------------------
   Message composer (source lines 163-179).
   ------------------------------------------------------------------ -/

/-- The fully collected answer dictionary consumed by `message`. -/
structure Answers where
  prefix_ : String
  scope : String
  subject : String
  body : String
  footer : String
  is_breaking_change : Bool

/-- Source `message` (lines 163-179), with Python truthiness of strings
made explicit as emptiness tests. -/
def message (answers : Answers) : String :=
  let scope := if answers.scope = "" then answers.scope
               else "(" ++ answers.scope ++ ")"
  let body := if answers.body = "" then answers.body
              else "\n\n" ++ answers.body
  let footer0 := if answers.is_breaking_change
                 then "BREAKING CHANGE 🚨: " ++ answers.footer
                 else answers.footer
  let footer := if footer0 = "" then footer0 else "\n\n" ++ footer0
  answers.prefix_ ++ scope ++ ": " ++ answers.subject ++ body ++ footer

/-- The composition formula exactly as the spec sentence states it, for
comparison with the source function `message`. -/
def messageSpec (a : Answers) : String :=
  let footerText := if a.is_breaking_change
                    then "BREAKING CHANGE 🚨: " ++ a.footer
                    else a.footer
  a.prefix_
    ++ (if a.scope ≠ "" then "(" ++ a.scope ++ ")" else "")
    ++ ": " ++ a.subject
    ++ (if a.body ≠ "" then "\n\n" ++ a.body else "")
    ++ (if footerText ≠ "" then "\n\n" ++ footerText else "")

/- ------------------------------------------------------------------
   Schema pattern and process_commit (source lines 199-211).
   ------------------------------------------------------------------ -/

/-- The commit type alternation of `schema_pattern` (source line 201),
in the order listed. -/
def commitTypes : List (List Char) :=
  ["build".data, "ci".data, "docs".data, "feat".data, "fix".data,
   "perf".data, "refactor".data, "style".data, "test".data,
   "chore".data, "revert".data, "bump".data]

/-- All ways to read the input as `inner ++ ')' :: rest` with `inner` a
possibly empty run of non-whitespace characters: the candidate extents
a backtracking engine tries for `\S+\)` after the opening parenthesis,
shortest first (the nonempty-`inner` requirement of `\S+` is imposed by
the caller). -/
def innerSplitsAux : List Char → List (List Char × List Char)
  | [] => []
  | c :: cs =>
    (if c = ')' then [(([] : List Char), cs)] else [])
      ++ (if pySpace c then []
          else (innerSplitsAux cs).map (fun p => (c :: p.1, p.2)))

/-- What `.*` matches greedily: the remainder of the current line (`.`
does not cross a newline). -/
def restOfLine (r : List Char) : List Char :=
  r.takeWhile (· ≠ '\n')

/-- Matcher for the group `(\s.*)` of `schema_pattern`: one whitespace
character, then greedily the remainder of the line; returns the text of
the group. -/
def matchWsRest : List Char → Option (List Char)
  | [] => none
  | c :: r => if pySpace c then some (c :: restOfLine r) else none

/-- Matcher for the tail `!?:(\s.*)` of `schema_pattern`: an optional
exclamation mark, a colon, then group 3. -/
def matchColonWs : List Char → Option (List Char)
  | '!' :: ':' :: r => matchWsRest r
  | ':' :: r => matchWsRest r
  | _ => none

/-- Matcher for the part of `schema_pattern` after the type token:
`(\(\S+\))?!?:(\s.*)`.  On an opening parenthesis the engine first
tries the scope group with every possible `\S+` extent (longest first),
and falls back to omitting the optional group when all extents fail. -/
def matchAfterType (l : List Char) : Option (List Char) :=
  match l with
  | '(' :: rest =>
    match (((innerSplitsAux rest).filter
        (fun p => !p.1.isEmpty)).reverse).findSome?
        (fun p => matchColonWs p.2) with
    | some g => some g
    | none => matchColonWs l
  | _ => matchColonWs l

/-- `re.match` of `schema_pattern` (source lines 199-208): the type
alternation is tried in the order listed, anchored at the start, with
backtracking to later alternatives when the rest of the pattern fails;
returns group 3 on success. -/
def schemaMatch (l : List Char) : Option (List Char) :=
  commitTypes.findSome? (fun t =>
    if t.isPrefixOf l then matchAfterType (l.drop t.length) else none)

/-- Source `process_commit` (lines 206-211): the empty string when the
pattern does not match, otherwise `m.group(3).strip()`. -/
def process_commit (commit : String) : String :=
  match schemaMatch commit.data with
  | none => ""
  | some g => ⟨pyStrip g⟩

/-- A scope segment as claim C7's schema describes it: absent, or a
parenthesized nonempty run of non-whitespace characters. -/
def ScopeShape (sc : List Char) : Prop :=
  sc = [] ∨ ∃ inner, inner ≠ [] ∧ (∀ c ∈ inner, pySpace c = false)
    ∧ sc = '(' :: inner ++ [')']

/-- The schema `<type>[(<scope>)][!]: <message>` of claim C7, read as a
decomposition of the input: a listed type token, an optional
parenthesized whitespace-free scope, an optional exclamation mark, a
colon, and a remainder beginning with a whitespace character. -/
def SchemaDecomp (l t sc bg rest : List Char) : Prop :=
  t ∈ commitTypes ∧ ScopeShape sc ∧ (bg = [] ∨ bg = ['!'])
    ∧ (∃ c r, rest = c :: r ∧ pySpace c = true)
    ∧ l = t ++ sc ++ bg ++ ':' :: rest

/- ------------------------------------------------------------------
   Changelog hook (source lines 213-222).
   ------------------------------------------------------------------ -/

/-- The slice of `git.GitCommit` the hook reads: its revision hash. -/
structure GitCommit where
  rev : String

/-- The slice of the parsed changelog entry dictionary the hook touches:
its `message` field. -/
structure ParsedMessage where
  message : String
  deriving DecidableEq

/-- Source `changelog_message_builder_hook` (lines 213-222), as a value
transformer: the new entry carries the annotated message
`m [rev[:5]](https://github.com/<github_repo>/commit/<rev>)`. -/
def changelog_message_builder_hook (parsed_message : ParsedMessage)
    (commit : GitCommit) (github_repo : String) : ParsedMessage :=
  { parsed_message with
    message := parsed_message.message ++ " [" ++ commit.rev.take 5
      ++ "](https://github.com/" ++ github_repo ++ "/commit/"
      ++ commit.rev ++ ")" }

/-- The hook call with Python reference semantics made explicit: the
entry dictionary lives in a heap cell `ref`; line 219 assigns to
`parsed_message["message"]`, mutating that cell, and line 222 returns
the same dictionary.  The result is the post-call heap paired with the
returned entry. -/
def hookCall (heap : Nat → ParsedMessage) (ref : Nat) (commit : GitCommit)
    (github_repo : String) : (Nat → ParsedMessage) × ParsedMessage :=
  let updated := changelog_message_builder_hook (heap ref) commit github_repo
  (Function.update heap ref updated, updated)

end CzGithub

namespace CzGithub

/- ------------------------------------------------------------------
   C1, C2, C3, C5 theorems.
   ------------------------------------------------------------------ -/

/-- A string with a non-empty left part stays non-empty under append. -/
theorem append_ne_empty (s t : String) (h : s.data ≠ []) : s ++ t ≠ "" := by
  intro he
  apply h
  have hd := congrArg String.data he
  rw [String.data_append] at hd
  have : s.data = [] ∧ t.data = [] := by
    simpa using hd
  exact this.1

/-- C1: for every parsed entry message `m`, commit revision `r` and
configured repository `repo`, the changelog hook returns an entry whose
message is `m`, a single space, and the markdown hyperlink whose label
is the first 5 characters of `r` and whose target is
`https://github.com/repo/commit/r`; in particular the spec's concrete
example holds. -/
theorem changelog_hook_appends_github_link :
    (∀ (m r repo : String),
      (changelog_message_builder_hook ⟨m⟩ ⟨r⟩ repo).message
        = m ++ " "
          ++ ("[" ++ r.take 5 ++ "](https://github.com/" ++ repo
              ++ "/commit/" ++ r ++ ")"))
    ∧ (changelog_message_builder_hook ⟨"Add caching layer"⟩
        ⟨"abcdef1234567"⟩ "org/repo").message
        = "Add caching layer [abcde](https://github.com/org/repo/commit/abcdef1234567)" := by
  constructor
  · intro m r repo
    have hdata : ∀ s t : String, s.data = t.data → s = t := by
      intro s t h
      exact congrArg String.mk h
    apply hdata
    have h2 : (" [" : String).data = (" " : String).data ++ ("[" : String).data := rfl
    simp [changelog_message_builder_hook, String.data_append, h2,
      List.append_assoc]
  · decide

/-- C2 counterexample: calling the hook on an entry stored in a heap
cell does change the caller's entry in place — after the call the cell
no longer holds the original message "Add caching layer". -/
theorem hook_mutates_entry_in_place :
    ((hookCall (fun _ => ⟨"Add caching layer"⟩) 0 ⟨"abcdef1234567"⟩
        "org/repo").1 0).message ≠ "Add caching layer" := by
  decide

/-- C2 amended: the hook mutates the input entry in place — after the
call the caller's cell holds exactly the returned entry, whose message
is the annotated string — and every other heap cell is untouched. -/
theorem hook_updates_cell_and_returns_it
    (heap : Nat → ParsedMessage) (ref : Nat) (commit : GitCommit)
    (repo : String) :
    (hookCall heap ref commit repo).1 ref
        = (hookCall heap ref commit repo).2
    ∧ ((hookCall heap ref commit repo).1 ref).message
        = (heap ref).message ++ " [" ++ commit.rev.take 5
          ++ "](https://github.com/" ++ repo ++ "/commit/"
          ++ commit.rev ++ ")"
    ∧ ∀ r, r ≠ ref → (hookCall heap ref commit repo).1 r = heap r := by
  refine ⟨by simp [hookCall], by simp [hookCall, changelog_message_builder_hook], ?_⟩
  intro r hr
  simp [hookCall, Function.update, hr]

/-- C2 amended, witness at a concrete heap, cell and commit. -/
theorem hook_updates_cell_and_returns_it_witness :
    (hookCall (fun _ => ⟨"m"⟩) 2 ⟨"abc"⟩ "o/r").1 2
        = (hookCall (fun _ => ⟨"m"⟩) 2 ⟨"abc"⟩ "o/r").2
    ∧ ((hookCall (fun _ => ⟨"m"⟩) 2 ⟨"abc"⟩ "o/r").1 2).message
        = ((fun (_ : Nat) => (⟨"m"⟩ : ParsedMessage)) 2).message ++ " ["
          ++ ("abc" : String).take 5 ++ "](https://github.com/" ++ "o/r"
          ++ "/commit/" ++ "abc" ++ ")"
    ∧ ∀ r, r ≠ 2 → (hookCall (fun _ => ⟨"m"⟩) 2 ⟨"abc"⟩ "o/r").1 r
        = (fun _ => ⟨"m"⟩) r :=
  hook_updates_cell_and_returns_it (fun _ => ⟨"m"⟩) 2 ⟨"abc"⟩ "o/r"

/-- C3 counterexample: with a configuration lacking `github_repo` the
component does print the diagnostic and terminate — but by calling
`quit()` with no argument, so the exit status is 0, not non-zero. -/
theorem classInit_missing_key_exits_zero :
    classInit [] = .exited githubRepoDiagnostic 0
    ∧ ¬ ∃ d c, classInit [] = InitResult.exited d c ∧ c ≠ 0 := by
  constructor
  · rfl
  · rintro ⟨d, c, h, hc⟩
    simp [classInit] at h
    exact hc h.2.symm

/-- C3 amended: if the configuration read at startup lacks the key
`github_repo`, initialization prints the diagnostic and terminates the
process — with exit status zero, since `quit()` is called with no
argument; if the key is present, initialization succeeds and
`github_repo` holds the configured value. -/
theorem classInit_spec (settings : List (String × String)) :
    (settings.lookup "github_repo" = none →
      classInit settings = .exited githubRepoDiagnostic 0)
    ∧ (∀ v, settings.lookup "github_repo" = some v →
      classInit settings = .ok v) := by
  constructor
  · intro h
    simp [classInit, h]
  · intro v h
    simp [classInit, h]

/-- C3 amended, witness: the empty configuration exits with status zero
and a one-entry configuration initializes with the configured value. -/
theorem classInit_spec_witness :
    (([] : List (String × String)).lookup "github_repo" = none →
      classInit [] = .exited githubRepoDiagnostic 0)
    ∧ (∀ v, ([] : List (String × String)).lookup "github_repo" = some v →
      classInit [] = .ok v) :=
  classInit_spec []

/-- C6 counterexample: on "Fix bug.." the source strips both trailing
periods while the claim's normalization strips exactly one, and the
validation message carries a trailing period the claim omits. -/
theorem parse_subject_strips_all_dots :
    parse_subject "Fix bug.." = .ok "Fix bug"
    ∧ claimParseSubject "Fix bug.." = .ok "Fix bug."
    ∧ parse_subject "Fix bug.." ≠ claimParseSubject "Fix bug.."
    ∧ parse_subject "" ≠ claimParseSubject "" := by
  refine ⟨by decide, by decide, by decide, by decide⟩

/-- C6 amended: `parse_subject` strips all leading and trailing periods
and then surrounding whitespace, and returns the validation error
"Subject is required." exactly when that normalization is empty;
"Fix bug." maps to "Fix bug", while "" and "   " produce the error. -/
theorem parse_subject_spec (text : String) :
    (∀ out, parse_subject text = .ok out →
      out.data = pyStrip (pyStripDots text.data) ∧ out ≠ "")
    ∧ (parse_subject text = .error "Subject is required."
        ↔ pyStrip (pyStripDots text.data) = [])
    ∧ parse_subject "Fix bug." = .ok "Fix bug"
    ∧ parse_subject "" = .error "Subject is required."
    ∧ parse_subject "   " = .error "Subject is required." := by
  refine ⟨?_, ?_, by decide, by decide, by decide⟩
  · intro out hout
    unfold parse_subject required_validator at hout
    by_cases h : (⟨pyStrip (pyStripDots text.data)⟩ : String) = ""
    · simp [h] at hout
    · simp [h] at hout
      subst hout
      exact ⟨rfl, h⟩
  · unfold parse_subject required_validator
    by_cases h : (⟨pyStrip (pyStripDots text.data)⟩ : String) = ""
    · have : pyStrip (pyStripDots text.data) = [] := congrArg String.data h
      simp [h, this]
    · have : ¬ pyStrip (pyStripDots text.data) = [] := by
        intro he
        exact h (congrArg String.mk he)
      simp [h, this]

/-- C6 amended, witness at the concrete input "Fix bug.". -/
theorem parse_subject_spec_witness :
    (∀ out, parse_subject "Fix bug." = .ok out →
      out.data = pyStrip (pyStripDots ("Fix bug." : String).data) ∧ out ≠ "")
    ∧ (parse_subject "Fix bug." = .error "Subject is required."
        ↔ pyStrip (pyStripDots ("Fix bug." : String).data) = [])
    ∧ parse_subject "Fix bug." = .ok "Fix bug"
    ∧ parse_subject "" = .error "Subject is required."
    ∧ parse_subject "   " = .error "Subject is required." :=
  parse_subject_spec "Fix bug."

/-- Unfolding `List.intercalate` over a two-or-more-element list. -/
theorem intercalate_cons_cons (s t u : List Char) (us : List (List Char)) :
    List.intercalate s (t :: u :: us)
      = t ++ s ++ List.intercalate s (u :: us) := by
  simp [List.intercalate, List.intersperse]

/-- `List.intercalate` over a one-element list is that element. -/
theorem intercalate_singleton (s sep : List Char) :
    List.intercalate sep [s] = s := by
  simp [List.intercalate, List.intersperse]

/-- Every token produced by `pySplitAux` consists of non-whitespace
characters, provided the accumulator does. -/
theorem pySplitAux_no_space (l : List Char) :
    ∀ (acc : List Char), (∀ c ∈ acc, pySpace c = false) →
      ∀ t ∈ pySplitAux l acc, ∀ c ∈ t, pySpace c = false := by
  induction l with
  | nil =>
    intro acc hacc t ht c hc
    unfold pySplitAux at ht
    by_cases ha : acc = []
    · simp [ha] at ht
    · simp [ha] at ht
      subst ht
      exact hacc c (by simpa using hc)
  | cons d ds ih =>
    intro acc hacc t ht c hc
    unfold pySplitAux at ht
    by_cases hd : pySpace d = true
    · by_cases ha : acc = []
      · simp [hd, ha] at ht
        exact ih [] (by simp) t ht c hc
      · simp [hd, ha] at ht
        rcases ht with rfl | ht
        · exact hacc c (by simpa using hc)
        · exact ih [] (by simp) t ht c hc
    · simp [hd] at ht
      refine ih (d :: acc) ?_ t ht c hc
      intro e he
      rcases List.mem_cons.1 he with rfl | he
      · simpa using hd
      · exact hacc e he

/-- Every character of a hyphen-intercalation is a hyphen or comes from
one of the joined tokens. -/
theorem mem_intercalate_hyphen (ts : List (List Char)) (c : Char)
    (hc : c ∈ List.intercalate ['-'] ts) : c = '-' ∨ ∃ t ∈ ts, c ∈ t := by
  induction ts with
  | nil => simp [List.intercalate] at hc
  | cons t ts ih =>
    cases ts with
    | nil =>
      rw [intercalate_singleton] at hc
      exact Or.inr ⟨t, by simp, hc⟩
    | cons u us =>
      rw [intercalate_cons_cons] at hc
      rcases List.mem_append.1 hc with h1 | h2
      · rcases List.mem_append.1 h1 with h3 | h4
        · exact Or.inr ⟨t, by simp, h3⟩
        · exact Or.inl (by simpa using h4)
      · rcases ih h2 with h | ⟨v, hv, hcv⟩
        · exact Or.inl h
        · exact Or.inr ⟨v, by simp [hv], hcv⟩

/-- Counting hyphens in a hyphen-intercalation of hyphen-free tokens:
one fewer than the number of tokens. -/
theorem count_intercalate_hyphen (ts : List (List Char))
    (h : ∀ t ∈ ts, '-' ∉ t) :
    (List.intercalate ['-'] ts).count '-' = ts.length - 1 := by
  induction ts with
  | nil => simp [List.intercalate]
  | cons t ts ih =>
    cases ts with
    | nil =>
      rw [intercalate_singleton]
      simp [List.count_eq_zero.2 (h t (by simp))]
    | cons u us =>
      rw [intercalate_cons_cons]
      have ht : '-' ∉ t := h t (by simp)
      have hrest := ih (fun x hx => h x (by simp [List.mem_cons.1 hx]))
      simp only [List.count_append, List.count_eq_zero.2 ht, hrest]
      simp
      omega

/-- `parse_scope` always returns the hyphen-intercalation of the
whitespace tokens of the stripped input. -/
theorem parse_scope_data (text : String) :
    (parse_scope text).data
      = List.intercalate ['-'] (pySplit (pyStrip text.data)) := by
  unfold parse_scope
  by_cases h : text = ""
  · subst h
    decide
  · simp only [h, if_false]
    rcases hs : pySplit (pyStrip text.data) with _ | ⟨s, _ | ⟨u, us⟩⟩
    · simp [hs, List.intercalate]
    · simp [hs, intercalate_singleton]
    · simp [hs]

/-- C8 counterexample: "a-b c" has N = 2 whitespace tokens, yet the
result "a-b-c" contains 2 hyphen characters, not N - 1 = 1, because the
first token itself carries a hyphen. -/
theorem parse_scope_hyphen_count_counterexample :
    parse_scope "a-b c" = "a-b-c"
    ∧ (pySplit (pyStrip ("a-b c" : String).data)).length = 2
    ∧ (parse_scope "a-b c").data.count '-' = 2
    ∧ ¬ ((parse_scope "a-b c").data.count '-'
          = (pySplit (pyStrip ("a-b c" : String).data)).length - 1) := by
  refine ⟨by decide, by decide, by decide, by decide⟩

/-- C8 amended: `parse_scope` returns the hyphen-join of the whitespace
tokens of the trimmed input (the lone token itself when N = 1, the empty
string for empty or all-whitespace input), a string with no embedded
whitespace; when no input token itself contains a hyphen, the result
contains exactly N - 1 hyphen characters. -/
theorem parse_scope_spec (text : String) :
    (parse_scope text).data
      = List.intercalate ['-'] (pySplit (pyStrip text.data))
    ∧ (∀ c ∈ (parse_scope text).data, pySpace c = false)
    ∧ ((∀ t ∈ pySplit (pyStrip text.data), '-' ∉ t) →
        (parse_scope text).data.count '-'
          = (pySplit (pyStrip text.data)).length - 1) := by
  refine ⟨parse_scope_data text, ?_, ?_⟩
  · intro c hc
    rw [parse_scope_data] at hc
    rcases mem_intercalate_hyphen _ _ hc with rfl | ⟨t, ht, hct⟩
    · decide
    · exact pySplitAux_no_space _ [] (by simp) t ht c hct
  · intro h
    rw [parse_scope_data]
    exact count_intercalate_hyphen _ h

/-- C8 amended, witness at the concrete input "users db": two tokens,
one separator, no whitespace in the result. -/
theorem parse_scope_spec_witness :
    (parse_scope "users db").data
      = List.intercalate ['-'] (pySplit (pyStrip ("users db" : String).data))
    ∧ (∀ c ∈ (parse_scope "users db").data, pySpace c = false)
    ∧ ((∀ t ∈ pySplit (pyStrip ("users db" : String).data), '-' ∉ t) →
        (parse_scope "users db").data.count '-'
          = (pySplit (pyStrip ("users db" : String).data)).length - 1) :=
  parse_scope_spec "users db"

/-- A first line starting with a non-newline character keeps it. -/
theorem firstLine_cons (c : Char) (y : List Char) (h : c ≠ '\n') :
    firstLine (c :: y) = c :: y.takeWhile (· ≠ '\n') := by
  simp [firstLine, h]

/-- A word cannot be a prefix of a list with a different head. -/
theorem isPrefixOf_false_of_head_ne (a b : Char) (as bs : List Char)
    (h : (a == b) = false) : (a :: as).isPrefixOf (b :: bs) = false := by
  simp [List.isPrefixOf, h]

/-- The BREAKING-CHANGE rule fails on any line not starting with B. -/
theorem matchBreakingChange_false (c : Char) (l : List Char) (h : c ≠ 'B') :
    matchBreakingChange (c :: l) = false := by
  have hb : (('B' : Char) == c) = false := by
    simpa using fun he => h he.symm
  have h1 : "BREAKING-CHANGE".data.isPrefixOf (c :: l) = false :=
    isPrefixOf_false_of_head_ne 'B' c "REAKING-CHANGE".data l hb
  have h2 : "BREAKING CHANGE".data.isPrefixOf (c :: l) = false :=
    isPrefixOf_false_of_head_ne 'B' c "REAKING CHANGE".data l hb
  simp [matchBreakingChange, h1, h2]

/-- An emoji-word rule fails on any line whose head is neither the
word's first letter, a space, nor the emoji. -/
theorem matchEmojiWord_false (e w0 : Char) (w l : List Char) (c : Char)
    (hw : c ≠ w0) (hsp : c ≠ ' ') (he : c ≠ e) :
    matchEmojiWord e (w0 :: w) (c :: l) = false := by
  have b1 : (w0 == c) = false := by simpa using fun h => hw h.symm
  have b2 : ((' ' : Char) == c) = false := by simpa using fun h => hsp h.symm
  have b3 : (e == c) = false := by simpa using fun h => he h.symm
  simp [matchEmojiWord,
    isPrefixOf_false_of_head_ne w0 c w l b1,
    isPrefixOf_false_of_head_ne ' ' c (w0 :: w) l b2,
    isPrefixOf_false_of_head_ne e c (w0 :: w) l b3,
    isPrefixOf_false_of_head_ne e c (' ' :: w0 :: w) l b3]

/-- If no rule of `bump_map` matches the first line, classification
yields `none`. -/
theorem find_increment_eq_none (msg : List Char)
    (h0 : matchBangEnd (firstLine msg) = false)
    (h1 : matchBreakingChange (firstLine msg) = false)
    (h2 : matchEmojiWord '🎉' "feat".data (firstLine msg) = false)
    (h3 : matchEmojiWord '🐛' "fix".data (firstLine msg) = false)
    (h4 : matchEmojiWord '🔧' "refactor".data (firstLine msg) = false)
    (h5 : matchEmojiWord '🚀' "perf".data (firstLine msg) = false) :
    find_increment msg = none := by
  simp [find_increment, bump_map, List.find?, h0, h1, h2, h3, h4, h5]

/-- A message whose head character rules out every word pattern (and
whose first line does not end in an exclamation mark) is classified
`none`. -/
theorem find_increment_none_of_head (c : Char) (y : List Char)
    (hn : c ≠ '\n')
    (h0 : matchBangEnd (firstLine (c :: y)) = false)
    (hB : c ≠ 'B') (hf : c ≠ 'f') (hr : c ≠ 'r') (hp : c ≠ 'p')
    (hsp : c ≠ ' ')
    (h1 : c ≠ '🎉') (h2 : c ≠ '🐛') (h3 : c ≠ '🔧') (h4 : c ≠ '🚀') :
    find_increment (c :: y) = none := by
  have hfl := firstLine_cons c y hn
  refine find_increment_eq_none _ h0 ?_ ?_ ?_ ?_ ?_
  · rw [hfl]
    exact matchBreakingChange_false c _ hB
  · rw [hfl]
    exact matchEmojiWord_false '🎉' 'f' "eat".data _ c hf hsp h1
  · rw [hfl]
    exact matchEmojiWord_false '🐛' 'f' "ix".data _ c hf hsp h2
  · rw [hfl]
    exact matchEmojiWord_false '🔧' 'r' "efactor".data _ c hr hsp h3
  · rw [hfl]
    exact matchEmojiWord_false '🚀' 'p' "erf".data _ c hp hsp h4

/-- C4 counterexample: under the spec's evaluation model — each rule
regex tested against the first line, in order, first match wins — the
message "feat!: drop legacy API" classifies as MINOR, not MAJOR: the
first line does not end in an exclamation mark, so `^.+!$` fails and the
feat rule is the first to match. -/
theorem feat_bang_message_classifies_minor :
    find_increment "feat!: drop legacy API".data = some MINOR
    ∧ find_increment "feat!: drop legacy API".data ≠ some MAJOR := by
  refine ⟨by decide, by decide⟩

/-- C4 amended: the ordered rule list is evaluated top-to-bottom with
first match winning and the two MAJOR rules checked first: any message
whose first line matches a MAJOR rule classifies MAJOR even when it
also matches the feat rule (e.g. "feat: drop legacy API!"), while
"feat!: drop legacy API" — whose first line does not end in "!" —
classifies as MINOR via the feat rule. -/
theorem bump_classification_first_match_wins (msg : List Char)
    (h : matchBangEnd (firstLine msg) = true
        ∨ matchBreakingChange (firstLine msg) = true) :
    find_increment msg = some MAJOR
    ∧ find_increment "feat: drop legacy API!".data = some MAJOR
    ∧ find_increment "feat!: drop legacy API".data = some MINOR := by
  refine ⟨?_, by decide, by decide⟩
  rcases h with h | h
  · simp [find_increment, bump_map, List.find?, h]
  · by_cases h0 : matchBangEnd (firstLine msg) = true
    · simp [find_increment, bump_map, List.find?, h0]
    · have h0' : matchBangEnd (firstLine msg) = false := by
        simpa using h0
      simp [find_increment, bump_map, List.find?, h0', h]

/-- C4 amended, witness: the MAJOR classification applied to the
concrete message "feat: drop legacy API!". -/
theorem bump_classification_first_match_wins_witness :
    find_increment "feat: drop legacy API!".data = some MAJOR
    ∧ find_increment "feat: drop legacy API!".data = some MAJOR
    ∧ find_increment "feat!: drop legacy API".data = some MINOR :=
  bump_classification_first_match_wins "feat: drop legacy API!".data
    (Or.inl (by decide))

/-- C9: a commit message whose type token is test, docs, style, build,
ci or chore (its first line not ending in an exclamation mark, i.e. not
matching the breaking rule) matches no rule of `bump_map` and classifies
as `none`; and any message that does produce a bump matches one of the
breaking, feat, fix, refactor or perf rules on its first line. -/
theorem non_bumping_types_classify_none (tok rest : List Char)
    (htok : tok ∈ ["test".data, "docs".data, "style".data,
                   "build".data, "ci".data, "chore".data])
    (hbang : matchBangEnd (firstLine (tok ++ rest)) = false) :
    find_increment (tok ++ rest) = none
    ∧ (∀ msg : List Char, find_increment msg ≠ none →
        matchBangEnd (firstLine msg) = true
        ∨ matchBreakingChange (firstLine msg) = true
        ∨ matchEmojiWord '🎉' "feat".data (firstLine msg) = true
        ∨ matchEmojiWord '🐛' "fix".data (firstLine msg) = true
        ∨ matchEmojiWord '🔧' "refactor".data (firstLine msg) = true
        ∨ matchEmojiWord '🚀' "perf".data (firstLine msg) = true) := by
  constructor
  · simp only [List.mem_cons, List.not_mem_nil, or_false] at htok
    rcases htok with rfl | rfl | rfl | rfl | rfl | rfl
    · exact find_increment_none_of_head 't' _ (by decide) hbang (by decide)
        (by decide) (by decide) (by decide) (by decide) (by decide)
        (by decide) (by decide) (by decide)
    · exact find_increment_none_of_head 'd' _ (by decide) hbang (by decide)
        (by decide) (by decide) (by decide) (by decide) (by decide)
        (by decide) (by decide) (by decide)
    · exact find_increment_none_of_head 's' _ (by decide) hbang (by decide)
        (by decide) (by decide) (by decide) (by decide) (by decide)
        (by decide) (by decide) (by decide)
    · exact find_increment_none_of_head 'b' _ (by decide) hbang (by decide)
        (by decide) (by decide) (by decide) (by decide) (by decide)
        (by decide) (by decide) (by decide)
    · exact find_increment_none_of_head 'c' _ (by decide) hbang (by decide)
        (by decide) (by decide) (by decide) (by decide) (by decide)
        (by decide) (by decide) (by decide)
    · exact find_increment_none_of_head 'c' _ (by decide) hbang (by decide)
        (by decide) (by decide) (by decide) (by decide) (by decide)
        (by decide) (by decide) (by decide)
  · intro msg hne
    unfold find_increment at hne
    rcases hfind : bump_map.find? (fun rule => rule.1 (firstLine msg))
      with _ | rule
    · rw [hfind] at hne
      simp at hne
    · have hp := List.find?_some hfind
      have hmem := List.mem_of_find?_eq_some hfind
      simp only [bump_map, List.mem_cons, List.not_mem_nil, or_false]
        at hmem
      rcases hmem with rfl | rfl | rfl | rfl | rfl | rfl <;>
        simp only at hp <;> tauto

/-- C9, witness: "docs: update readme" is classified `none`. -/
theorem non_bumping_types_classify_none_witness :
    find_increment ("docs".data ++ ": update readme".data) = none
    ∧ (∀ msg : List Char, find_increment msg ≠ none →
        matchBangEnd (firstLine msg) = true
        ∨ matchBreakingChange (firstLine msg) = true
        ∨ matchEmojiWord '🎉' "feat".data (firstLine msg) = true
        ∨ matchEmojiWord '🐛' "fix".data (firstLine msg) = true
        ∨ matchEmojiWord '🔧' "refactor".data (firstLine msg) = true
        ∨ matchEmojiWord '🚀' "perf".data (firstLine msg) = true) :=
  non_bumping_types_classify_none "docs".data ": update readme".data
    (by decide) (by decide)

/-- A successful `findSome?` comes from some member of the list. -/
theorem findSome?_exists {α β : Type} (f : α → Option β) :
    ∀ (xs : List α) (b : β), xs.findSome? f = some b →
      ∃ a ∈ xs, f a = some b := by
  intro xs
  induction xs with
  | nil =>
    intro b h
    simp [List.findSome?] at h
  | cons x xs ih =>
    intro b h
    rw [List.findSome?_cons] at h
    rcases hx : f x with _ | y
    · rw [hx] at h
      obtain ⟨a, ha, hfa⟩ := ih b h
      exact ⟨a, List.mem_cons_of_mem _ ha, hfa⟩
    · rw [hx] at h
      cases h
      exact ⟨x, List.mem_cons_self _ _, hx⟩

/-- `findSome?` succeeds when it succeeds on some member. -/
theorem findSome?_isSome_of_mem {α β : Type} (f : α → Option β) :
    ∀ (xs : List α) (a : α), a ∈ xs → (f a).isSome = true →
      (xs.findSome? f).isSome = true := by
  intro xs
  induction xs with
  | nil =>
    intro a ha _
    cases ha
  | cons x xs ih =>
    intro a ha hfa
    rw [List.findSome?_cons]
    rcases hx : f x with _ | y
    · rcases List.mem_cons.1 ha with rfl | ha2
      · rw [hx] at hfa
        simp at hfa
      · exact ih a ha2 hfa
    · simp

/-- No listed commit type is a proper prefix of another. -/
theorem commitTypes_no_overlap : ∀ t1 ∈ commitTypes, ∀ t2 ∈ commitTypes,
    t1.isPrefixOf t2 = true → t1 = t2 := by
  decide

/-- Commit type tokens contain no whitespace. -/
theorem commitTypes_no_space : ∀ t ∈ commitTypes, ∀ c ∈ t,
    pySpace c = false := by
  decide

/-- Two listed commit types that are both prefixes of the same input
are equal. -/
theorem commitTypes_prefix_unique (l t1 t2 : List Char)
    (h1 : t1 ∈ commitTypes) (h2 : t2 ∈ commitTypes)
    (p1 : t1 <+: l) (p2 : t2 <+: l) : t1 = t2 := by
  rcases List.prefix_or_prefix_of_prefix p1 p2 with h | h
  · exact commitTypes_no_overlap t1 h1 t2 h2 (List.isPrefixOf_iff_prefix.2 h)
  · exact (commitTypes_no_overlap t2 h2 t1 h1
      (List.isPrefixOf_iff_prefix.2 h)).symm

/-- Every candidate produced by `innerSplitsAux` really splits the
input at a closing parenthesis, with a whitespace-free extent. -/
theorem innerSplitsAux_sound :
    ∀ (m : List Char) (p : List Char × List Char), p ∈ innerSplitsAux m →
      m = p.1 ++ ')' :: p.2 ∧ ∀ c ∈ p.1, pySpace c = false := by
  intro m
  induction m with
  | nil =>
    intro p hp
    simp [innerSplitsAux] at hp
  | cons c cs ih =>
    intro p hp
    unfold innerSplitsAux at hp
    rcases List.mem_append.1 hp with h1 | h2
    · by_cases hc : c = ')'
      · simp [hc] at h1
        subst h1
        simp [hc]
      · simp [hc] at h1
    · by_cases hs : pySpace c = true
      · simp [hs] at h2
      · rw [if_neg hs, List.mem_map] at h2
        obtain ⟨q, hq, rfl⟩ := h2
        obtain ⟨hm, hw⟩ := ih q hq
        refine ⟨by simp [hm], ?_⟩
        intro d hd
        rcases List.mem_cons.1 hd with rfl | hd2
        · simpa using hs
        · exact hw d hd2

/-- Every whitespace-free extent followed by a closing parenthesis is
among the candidates `innerSplitsAux` produces. -/
theorem innerSplitsAux_mem :
    ∀ (inner r : List Char), (∀ c ∈ inner, pySpace c = false) →
      (inner, r) ∈ innerSplitsAux (inner ++ ')' :: r) := by
  intro inner
  induction inner with
  | nil =>
    intro r _
    simp [innerSplitsAux]
  | cons c cs ih =>
    intro r h
    have hc : pySpace c = false := h c (List.mem_cons_self _ _)
    rw [List.cons_append]
    show (c :: cs, r)
      ∈ (if c = ')' then [(([] : List Char), cs ++ ')' :: r)] else [])
        ++ (if pySpace c then []
            else (innerSplitsAux (cs ++ ')' :: r)).map
              (fun p => (c :: p.1, p.2)))
    refine List.mem_append.2 (Or.inr ?_)
    rw [if_neg (by simp [hc])]
    exact List.mem_map.2
      ⟨(cs, r), ih r (fun d hd => h d (List.mem_cons_of_mem _ hd)), rfl⟩

/-- A successful whitespace-head match, computed. -/
theorem matchWsRest_eq (c : Char) (r : List Char) (h : pySpace c = true) :
    matchWsRest (c :: r) = some (c :: restOfLine r) := by
  simp [matchWsRest, h]

/-- What a successful whitespace-head match implies. -/
theorem matchWsRest_sound (m g : List Char) (h : matchWsRest m = some g) :
    ∃ c r, m = c :: r ∧ pySpace c = true ∧ g = c :: restOfLine r := by
  cases m with
  | nil => simp [matchWsRest] at h
  | cons c r =>
    cases hb : pySpace c with
    | false => simp [matchWsRest, hb] at h
    | true =>
      rw [matchWsRest_eq c r hb] at h
      cases h
      exact ⟨c, r, rfl, hb, rfl⟩

/-- The tail matcher after an exclamation mark and colon. -/
theorem matchColonWs_bang (r : List Char) :
    matchColonWs ('!' :: ':' :: r) = matchWsRest r := rfl

/-- The tail matcher after a bare colon. -/
theorem matchColonWs_colon (r : List Char) :
    matchColonWs (':' :: r) = matchWsRest r := rfl

/-- What a successful tail match implies: an optional exclamation mark,
a colon, and a whitespace-led remainder. -/
theorem matchColonWs_sound (m g : List Char) (h : matchColonWs m = some g) :
    ∃ bg rest, (bg = [] ∨ bg = ['!']) ∧ m = bg ++ ':' :: rest
      ∧ ∃ c r, rest = c :: r ∧ pySpace c = true
        ∧ g = c :: restOfLine r := by
  unfold matchColonWs at h
  split at h
  · obtain ⟨c, r2, hm, hc, hg⟩ := matchWsRest_sound _ _ h
    exact ⟨['!'], _, Or.inr rfl, rfl, c, r2, hm, hc, hg⟩
  · obtain ⟨c, r2, hm, hc, hg⟩ := matchWsRest_sound _ _ h
    exact ⟨[], _, Or.inl rfl, rfl, c, r2, hm, hc, hg⟩
  · exact absurd h (by simp)

/-- A well-formed tail always matches, computed. -/
theorem matchColonWs_eq (bg : List Char) (hbg : bg = [] ∨ bg = ['!'])
    (c : Char) (r : List Char) (hc : pySpace c = true) :
    matchColonWs (bg ++ ':' :: c :: r) = some (c :: restOfLine r) := by
  rcases hbg with rfl | rfl
  · rw [List.nil_append, matchColonWs_colon, matchWsRest_eq c r hc]
  · show matchColonWs ('!' :: ':' :: c :: r) = _
    rw [matchColonWs_bang, matchWsRest_eq c r hc]

/-- What a successful match of the post-type part implies: an optional
parenthesized whitespace-free scope, an optional exclamation mark, a
colon, and a whitespace-led remainder, with group 3 the whitespace
character and the rest of its line. -/
theorem matchAfterType_sound (u g : List Char)
    (h : matchAfterType u = some g) :
    ∃ sc bg rest, ScopeShape sc ∧ (bg = [] ∨ bg = ['!'])
      ∧ (∃ c r, rest = c :: r ∧ pySpace c = true ∧ g = c :: restOfLine r)
      ∧ u = sc ++ bg ++ ':' :: rest := by
  unfold matchAfterType at h
  split at h
  · rename_i us
    split at h
    · rename_i g2 heq
      cases h
      obtain ⟨p, hp, hcw⟩ := findSome?_exists _ _ _ heq
      obtain ⟨hm, hne⟩ := List.mem_filter.1 (List.mem_reverse.1 hp)
      obtain ⟨hus, hw⟩ := innerSplitsAux_sound us p hm
      obtain ⟨bg, rest, hbg, hp2, hrest⟩ := matchColonWs_sound _ _ hcw
      refine ⟨'(' :: p.1 ++ [')'], bg, rest,
        Or.inr ⟨p.1, ?_, hw, rfl⟩, hbg, hrest, ?_⟩
      · intro he
        rw [he] at hne
        simp at hne
      · rw [hus, hp2]
        simp
    · obtain ⟨bg, rest, hbg, hm, hrest⟩ := matchColonWs_sound _ _ h
      exact ⟨[], bg, rest, Or.inl rfl, hbg, hrest, by simp [hm]⟩
  · obtain ⟨bg, rest, hbg, hm, hrest⟩ := matchColonWs_sound _ _ h
    exact ⟨[], bg, rest, Or.inl rfl, hbg, hrest, by simp [hm]⟩

/-- A well-formed post-type part always matches. -/
theorem matchAfterType_isSome (sc bg rest : List Char)
    (hsc : ScopeShape sc) (hbg : bg = [] ∨ bg = ['!'])
    (c : Char) (r : List Char) (hrest : rest = c :: r)
    (hc : pySpace c = true) :
    (matchAfterType (sc ++ bg ++ ':' :: rest)).isSome = true := by
  subst hrest
  rcases hsc with rfl | ⟨inner, hne, hw, rfl⟩
  · rcases hbg with rfl | rfl
    · show (matchColonWs (':' :: c :: r)).isSome = true
      rw [matchColonWs_colon, matchWsRest_eq c r hc]
      rfl
    · show (matchColonWs ('!' :: ':' :: c :: r)).isSome = true
      rw [matchColonWs_bang, matchWsRest_eq c r hc]
      rfl
  · have hu : (('(' :: inner ++ [')']) ++ bg) ++ ':' :: c :: r
        = '(' :: (inner ++ ')' :: (bg ++ ':' :: c :: r)) := by
      simp
    rw [hu]
    have hmem0 : (inner, bg ++ ':' :: c :: r)
        ∈ innerSplitsAux (inner ++ ')' :: (bg ++ ':' :: c :: r)) :=
      innerSplitsAux_mem _ _ hw
    have hmemf : (inner, bg ++ ':' :: c :: r)
        ∈ ((innerSplitsAux (inner ++ ')' :: (bg ++ ':' :: c :: r))).filter
            (fun p => !p.1.isEmpty)).reverse :=
      List.mem_reverse.2 (List.mem_filter.2
        ⟨hmem0, by simp [List.isEmpty_iff, hne]⟩)
    have hsome : (matchColonWs (bg ++ ':' :: c :: r)).isSome = true := by
      rw [matchColonWs_eq bg hbg c r hc]
      rfl
    have hfs := findSome?_isSome_of_mem (fun p => matchColonWs p.2) _ _
      hmemf hsome
    rcases hval : (((innerSplitsAux
          (inner ++ ')' :: (bg ++ ':' :: c :: r))).filter
          (fun p => !p.1.isEmpty)).reverse).findSome?
          (fun p => matchColonWs p.2) with _ | g
    · rw [hval] at hfs
      simp at hfs
    · simp [matchAfterType, hval]

/-- What a successful schema match implies: a decomposition of the
input according to the claimed schema, with group 3 the whitespace
character after the colon and the rest of its line. -/
theorem schemaMatch_sound (l g : List Char) (h : schemaMatch l = some g) :
    ∃ t sc bg rest, SchemaDecomp l t sc bg rest
      ∧ ∃ c r, rest = c :: r ∧ g = c :: restOfLine r := by
  obtain ⟨t, ht, hft⟩ := findSome?_exists _ _ _ h
  by_cases hp : t.isPrefixOf l = true
  · rw [if_pos hp] at hft
    obtain ⟨u, hu⟩ := List.isPrefixOf_iff_prefix.1 hp
    have hdrop : l.drop t.length = u := by
      rw [← hu]
      exact List.drop_left t u
    rw [hdrop] at hft
    obtain ⟨sc, bg, rest, hsc, hbg, ⟨c, r, hr, hcw, hg⟩, hu2⟩ :=
      matchAfterType_sound u g hft
    refine ⟨t, sc, bg, rest, ⟨ht, hsc, hbg, ⟨c, r, hr, hcw⟩, ?_⟩,
      c, r, hr, hg⟩
    rw [← hu, hu2]
    simp
  · rw [if_neg hp] at hft
    cases hft

/-- A schema-decomposable input always matches. -/
theorem schemaMatch_isSome (l t sc bg rest : List Char)
    (hd : SchemaDecomp l t sc bg rest) :
    (schemaMatch l).isSome = true := by
  obtain ⟨ht, hsc, hbg, ⟨c, r, hr, hc⟩, hl⟩ := hd
  have hl2 : l = t ++ (sc ++ (bg ++ ':' :: rest)) := by
    rw [hl]
    simp
  have hpre : t.isPrefixOf l = true :=
    List.isPrefixOf_iff_prefix.2 ⟨sc ++ (bg ++ ':' :: rest), hl2.symm⟩
  refine findSome?_isSome_of_mem _ commitTypes t ht ?_
  rw [if_pos hpre]
  have hdrop : l.drop t.length = sc ++ bg ++ ':' :: rest := by
    rw [hl2, List.drop_left]
    simp
  rw [hdrop]
  exact matchAfterType_isSome sc bg rest hsc hbg c r hr hc

/-- The header of a schema decomposition (type, scope, bang) contains
no whitespace. -/
theorem schemaDecomp_header_no_space (t sc bg : List Char)
    (ht : t ∈ commitTypes) (hsc : ScopeShape sc)
    (hbg : bg = [] ∨ bg = ['!']) :
    ∀ c ∈ t ++ sc ++ bg, pySpace c = false := by
  intro c hc
  rcases List.mem_append.1 hc with hc1 | hcbg
  · rcases List.mem_append.1 hc1 with hct | hcsc
    · exact commitTypes_no_space t ht c hct
    · rcases hsc with rfl | ⟨inner, _, hw, rfl⟩
      · cases hcsc
      · rcases List.mem_cons.1 hcsc with rfl | hc2
        · decide
        · rcases List.mem_append.1 hc2 with hc3 | hc4
          · exact hw c hc3
          · rcases List.mem_singleton.1 hc4 with rfl
            decide
  · rcases hbg with rfl | rfl
    · cases hcbg
    · rcases List.mem_singleton.1 hcbg with rfl
      decide

/-- Two splits of the same input at a colon followed by whitespace,
with whitespace-free parts before the colon, cannot have the first
part shorter on one side. -/
theorem header_split_not_lt (H1 H2 rest1 rest2 : List Char) (c1 c2 : Char)
    (hw2 : ∀ c ∈ H2, pySpace c = false)
    (hc1 : pySpace c1 = true)
    (he : H1 ++ ':' :: c1 :: rest1 = H2 ++ ':' :: c2 :: rest2)
    (hlt : H1.length < H2.length) : False := by
  have p1 : H1 <+: H2 ++ ':' :: c2 :: rest2 := ⟨':' :: c1 :: rest1, he⟩
  have p2 : H2 <+: H2 ++ ':' :: c2 :: rest2 := ⟨':' :: c2 :: rest2, rfl⟩
  rcases List.prefix_or_prefix_of_prefix p1 p2 with hp | hp
  · obtain ⟨δ, hδ⟩ := hp
    have hδne : δ ≠ [] := by
      intro h0
      rw [h0, List.append_nil] at hδ
      rw [hδ] at hlt
      exact Nat.lt_irrefl _ hlt
    rw [← hδ, List.append_assoc] at he
    have he2 : ':' :: c1 :: rest1 = δ ++ ':' :: c2 :: rest2 :=
      List.append_cancel_left he
    cases δ with
    | nil => exact hδne rfl
    | cons d δ2 =>
      rw [List.cons_append] at he2
      injection he2 with hd he3
      cases δ2 with
      | nil =>
        rw [List.nil_append] at he3
        injection he3 with hc1' _
        rw [hc1'] at hc1
        exact absurd hc1 (by decide)
      | cons d2 δ3 =>
        rw [List.cons_append] at he3
        injection he3 with hc1' _
        have hmem : d2 ∈ H2 := by
          rw [← hδ]
          exact List.mem_append.2 (Or.inr (List.mem_cons_of_mem _
            (List.mem_cons_self _ _)))
        have hfalse : pySpace c1 = false := by
          rw [hc1']
          exact hw2 d2 hmem
        rw [hc1] at hfalse
        exact absurd hfalse (by decide)
  · have := List.IsPrefix.length_le hp
    omega

/-- The text after the colon is the same in any two schema
decompositions of the same input. -/
theorem schemaDecomp_rest_unique (l t1 sc1 bg1 r1 t2 sc2 bg2 r2 : List Char)
    (h1 : SchemaDecomp l t1 sc1 bg1 r1)
    (h2 : SchemaDecomp l t2 sc2 bg2 r2) : r1 = r2 := by
  obtain ⟨ht1, hsc1, hbg1, ⟨c1, rr1, hrr1, hc1⟩, hl1⟩ := h1
  obtain ⟨ht2, hsc2, hbg2, ⟨c2, rr2, hrr2, hc2⟩, hl2⟩ := h2
  have hw1 := schemaDecomp_header_no_space t1 sc1 bg1 ht1 hsc1 hbg1
  have hw2 := schemaDecomp_header_no_space t2 sc2 bg2 ht2 hsc2 hbg2
  have he : (t1 ++ sc1 ++ bg1) ++ ':' :: c1 :: rr1
      = (t2 ++ sc2 ++ bg2) ++ ':' :: c2 :: rr2 := by
    rw [← hrr1, ← hrr2, ← hl1, ← hl2]
  rcases Nat.lt_trichotomy (t1 ++ sc1 ++ bg1).length
      (t2 ++ sc2 ++ bg2).length with hlt | heq | hgt
  · exact absurd (header_split_not_lt _ _ _ _ c1 c2 hw2 hc1 he hlt) id
  · obtain ⟨_, htail⟩ := List.append_inj he heq
    injection htail with _ htail2
    rw [hrr1, hrr2, htail2]
  · exact absurd (header_split_not_lt _ _ _ _ c2 c1 hw1 hc2 he.symm hgt) id

/-- C7: `process_commit` never fails: on any input admitting a schema
decomposition `<type>[(<scope>)][!]: <message>` (with a listed type) it
returns the trimmed text after the colon (stated for single-line
inputs, where group 3 spans the whole remainder), and on any input
admitting none it returns the empty string; in particular
"chore: bump deps" yields "bump deps" and
"not a conventional message" yields "". -/
theorem process_commit_spec (s : String) (t sc bg rest : List Char)
    (hd : SchemaDecomp s.data t sc bg rest) (hnl : '\n' ∉ s.data) :
    process_commit s = ⟨pyStrip rest⟩
    ∧ (∀ s2 : String, (¬ ∃ t2 sc2 bg2 rest2,
        SchemaDecomp s2.data t2 sc2 bg2 rest2) → process_commit s2 = "")
    ∧ process_commit "chore: bump deps" = "bump deps"
    ∧ process_commit "not a conventional message" = "" := by
  refine ⟨?_, ?_, by decide, by decide⟩
  · have hiso := schemaMatch_isSome s.data t sc bg rest hd
    rcases hm : schemaMatch s.data with _ | g
    · rw [hm] at hiso
      cases hiso
    · obtain ⟨t2, sc2, bg2, rest2, hd2, c, r, hr, hg⟩ :=
        schemaMatch_sound _ _ hm
      have hre : rest2 = rest :=
        schemaDecomp_rest_unique s.data t2 sc2 bg2 rest2 t sc bg rest hd2 hd
      have hsub : ∀ x ∈ rest2, x ∈ s.data := by
        intro x hx
        obtain ⟨_, _, _, _, hl⟩ := hd2
        rw [hl]
        refine List.mem_append.2 (Or.inr ?_)
        exact List.mem_cons_of_mem _ hx
      have hline : restOfLine r = r := by
        refine List.takeWhile_eq_self_iff.2 ?_
        intro x hx
        have hxr : x ∈ rest2 := by
          rw [hr]
          exact List.mem_cons_of_mem _ hx
        have hxs := hsub x hxr
        simp only [decide_eq_true_iff]
        intro hxe
        rw [hxe] at hxs
        exact hnl hxs
      have hgr : g = rest := by
        rw [hg, hline, ← hr, hre]
      simp [process_commit, hm, hgr]
  · intro s2 hnone
    rcases hm : schemaMatch s2.data with _ | g
    · simp [process_commit, hm]
    · exfalso
      apply hnone
      obtain ⟨t2, sc2, bg2, rest2, hd2, _⟩ := schemaMatch_sound _ _ hm
      exact ⟨t2, sc2, bg2, rest2, hd2⟩

/-- C7, witness: the schema decomposition of "feat(db): add index" is
processed to "add index", and the concrete examples evaluate. -/
theorem process_commit_spec_witness :
    process_commit "feat(db): add index"
      = ⟨pyStrip (' ' :: "add index".data)⟩
    ∧ (∀ s2 : String, (¬ ∃ t2 sc2 bg2 rest2,
        SchemaDecomp s2.data t2 sc2 bg2 rest2) → process_commit s2 = "")
    ∧ process_commit "chore: bump deps" = "bump deps"
    ∧ process_commit "not a conventional message" = "" :=
  process_commit_spec "feat(db): add index" "feat".data
    ('(' :: "db".data ++ [')']) [] (' ' :: "add index".data)
    ⟨by decide, Or.inr ⟨"db".data, by decide, by decide, rfl⟩,
      Or.inl rfl, ⟨' ', "add index".data, rfl, by decide⟩, by decide⟩
    (by decide)

/-- C10: the schema requires a whitespace character immediately after
the colon and a scope with no whitespace: a listed type followed
directly by a colon and a non-whitespace continuation never matches,
and a listed type with a parenthesized scope containing whitespace (the
scope text itself containing no colon) never matches; in particular
`process_commit "fix:typo"` and `process_commit "fix(my scope): x"`
both return the empty string. -/
theorem process_commit_strictness (t text : List Char)
    (ht : t ∈ commitTypes)
    (hhead : ∀ c r, text = c :: r → pySpace c = false) :
    process_commit ⟨t ++ ':' :: text⟩ = ""
    ∧ (∀ (t2 inner text2 : List Char), t2 ∈ commitTypes →
        (∃ c ∈ inner, pySpace c = true) → ':' ∉ inner →
        process_commit ⟨t2 ++ '(' :: (inner ++ ')' :: ':' :: text2)⟩ = "")
    ∧ process_commit "fix:typo" = ""
    ∧ process_commit "fix(my scope): x" = "" := by
  refine ⟨?_, ?_, by decide, by decide⟩
  · rcases hm : schemaMatch (t ++ ':' :: text) with _ | g
    · have hdata : (⟨t ++ ':' :: text⟩ : String).data
          = t ++ ':' :: text := rfl
      simp [process_commit, hdata, hm]
    · exfalso
      obtain ⟨t2, sc2, bg2, rest2, hd2, _⟩ := schemaMatch_sound _ _ hm
      obtain ⟨ht2, hsc2, hbg2, ⟨c, r, hrr, hcws⟩, hl⟩ := hd2
      have hteq : t2 = t := commitTypes_prefix_unique (t ++ ':' :: text)
        t2 t ht2 ht
        ⟨sc2 ++ (bg2 ++ ':' :: rest2), by rw [hl]; simp⟩
        ⟨':' :: text, rfl⟩
      subst hteq
      have hl2 : ':' :: text = sc2 ++ (bg2 ++ ':' :: rest2) := by
        have hx : t2 ++ ':' :: text
            = t2 ++ (sc2 ++ (bg2 ++ ':' :: rest2)) := by
          rw [hl]
          simp
        exact List.append_cancel_left hx
      rcases hsc2 with rfl | ⟨inner2, hne2, hw2, rfl⟩
      · rw [List.nil_append] at hl2
        rcases hbg2 with rfl | rfl
        · rw [List.nil_append] at hl2
          injection hl2 with _ htext
          have hfalse := hhead c r (by rw [htext, hrr])
          rw [hcws] at hfalse
          exact absurd hfalse (by decide)
        · rw [List.cons_append] at hl2
          injection hl2 with hch _
          exact absurd hch (by decide)
      · rw [List.cons_append] at hl2
        injection hl2 with hch _
        exact absurd hch (by decide)
  · intro t2 inner text2 ht2 hws hcol
    rcases hm : schemaMatch (t2 ++ '(' :: (inner ++ ')' :: ':' :: text2))
      with _ | g
    · have hdata : (⟨t2 ++ '(' :: (inner ++ ')' :: ':' :: text2)⟩
          : String).data = t2 ++ '(' :: (inner ++ ')' :: ':' :: text2) :=
        rfl
      simp [process_commit, hdata, hm]
    · exfalso
      obtain ⟨t3, sc3, bg3, rest3, hd3, _⟩ := schemaMatch_sound _ _ hm
      obtain ⟨ht3, hsc3, hbg3, ⟨c, r, hrr, hcws⟩, hl⟩ := hd3
      have ht23 : t3 = t2 := commitTypes_prefix_unique
        (t2 ++ '(' :: (inner ++ ')' :: ':' :: text2)) t3 t2 ht3 ht2
        ⟨sc3 ++ (bg3 ++ ':' :: rest3), by rw [hl]; simp⟩
        ⟨'(' :: (inner ++ ')' :: ':' :: text2), rfl⟩
      subst ht23
      have hl2 : '(' :: (inner ++ ')' :: ':' :: text2)
          = sc3 ++ (bg3 ++ ':' :: rest3) := by
        have hx : t3 ++ '(' :: (inner ++ ')' :: ':' :: text2)
            = t3 ++ (sc3 ++ (bg3 ++ ':' :: rest3)) := by
          rw [hl]
          simp
        exact List.append_cancel_left hx
      obtain ⟨cw, hcw, hcwt⟩ := hws
      rcases hsc3 with rfl | ⟨inner3, hne3, hw3, rfl⟩
      · rw [List.nil_append] at hl2
        rcases hbg3 with rfl | rfl
        · rw [List.nil_append] at hl2
          injection hl2 with hch _
          exact absurd hch (by decide)
        · rw [List.cons_append] at hl2
          injection hl2 with hch _
          exact absurd hch (by decide)
      · rw [List.cons_append] at hl2
        injection hl2 with _ hl3
        have hl4 : inner ++ ')' :: ':' :: text2
            = inner3 ++ ')' :: (bg3 ++ ':' :: rest3) := by
          rw [hl3]
          simp
        have p1 : inner <+: inner ++ ')' :: ':' :: text2 := ⟨_, rfl⟩
        have p2 : inner3 <+: inner ++ ')' :: ':' :: text2 :=
          ⟨')' :: (bg3 ++ ':' :: rest3), hl4.symm⟩
        rcases List.prefix_or_prefix_of_prefix p1 p2 with hp | hp
        · have hfalse := hw3 cw (hp.subset hcw)
          rw [hcwt] at hfalse
          exact absurd hfalse (by decide)
        · obtain ⟨δ, hδ⟩ := hp
          cases δ with
          | nil =>
            rw [List.append_nil] at hδ
            have hmem : cw ∈ inner3 := by
              rw [hδ]
              exact hcw
            have hfalse := hw3 cw hmem
            rw [hcwt] at hfalse
            exact absurd hfalse (by decide)
          | cons d δ2 =>
            rw [← hδ, List.append_assoc] at hl4
            have hl5 : (d :: δ2) ++ ')' :: ':' :: text2
                = ')' :: (bg3 ++ ':' :: rest3) :=
              List.append_cancel_left hl4
            rw [List.cons_append] at hl5
            injection hl5 with _ hl6
            rcases hbg3 with rfl | rfl
            · rw [List.nil_append] at hl6
              cases δ2 with
              | nil =>
                rw [List.nil_append] at hl6
                injection hl6 with hch _
                exact absurd hch (by decide)
              | cons e δ3 =>
                rw [List.cons_append] at hl6
                injection hl6 with hch _
                apply hcol
                rw [← hδ]
                refine List.mem_append.2 (Or.inr ?_)
                rw [← hch]
                exact List.mem_cons_of_mem _ (List.mem_cons_self _ _)
            · cases δ2 with
              | nil =>
                rw [List.nil_append, List.cons_append] at hl6
                injection hl6 with hch _
                exact absurd hch (by decide)
              | cons e δ3 =>
                rw [List.cons_append, List.cons_append] at hl6
                injection hl6 with _ hl7
                cases δ3 with
                | nil =>
                  rw [List.nil_append] at hl7
                  injection hl7 with hch _
                  exact absurd hch (by decide)
                | cons e2 δ4 =>
                  rw [List.cons_append] at hl7
                  injection hl7 with hch _
                  apply hcol
                  rw [← hδ]
                  refine List.mem_append.2 (Or.inr ?_)
                  rw [← hch]
                  exact List.mem_cons_of_mem _
                    (List.mem_cons_of_mem _ (List.mem_cons_self _ _))

/-- C10, witness at the concrete inputs "fix:typo" (no whitespace after
the colon) and "fix(my scope): x" (whitespace inside the scope). -/
theorem process_commit_strictness_witness :
    process_commit ⟨"fix".data ++ ':' :: "typo".data⟩ = ""
    ∧ (∀ (t2 inner text2 : List Char), t2 ∈ commitTypes →
        (∃ c ∈ inner, pySpace c = true) → ':' ∉ inner →
        process_commit ⟨t2 ++ '(' :: (inner ++ ')' :: ':' :: text2)⟩ = "")
    ∧ process_commit "fix:typo" = ""
    ∧ process_commit "fix(my scope): x" = "" :=
  process_commit_strictness "fix".data "typo".data (by decide)
    (fun c r h => by
      injection h with h1 _
      rw [← h1]
      decide)

/-- C5: the composer returns exactly the string the spec's formula
describes: type, parenthesized scope when non-empty, colon and space,
subject, blank-line-prefixed body when non-empty, and blank-line-prefixed
footer, where the footer text carries the breaking-change marker
whenever the flag is set. -/
theorem message_eq_messageSpec (a : Answers) : message a = messageSpec a := by
  unfold message messageSpec
  rcases a with ⟨p, sc, su, b, f, brk⟩
  have hbrk : ("BREAKING CHANGE 🚨: " ++ f : String) ≠ "" :=
    append_ne_empty _ _ (by decide)
  by_cases hsc : sc = "" <;> by_cases hb : b = "" <;>
    by_cases hf : f = "" <;> cases brk <;>
    simp [hsc, hb, hf, hbrk]

end CzGithub
